import Mathlib

set_option maxHeartbeats 1000000
set_option maxRecDepth 8000

/-!
Verification of the UMI-tools `Utilities.py` module: the extended option
parser (`AppendCommaOption`, `OptionParser`), the experiment lifecycle
(`Start`, `Stop`, `getHeader`, `getFooter`, `getParams`, `openFile`) and the
benchmark / caching helpers.  Python strings are modelled as `List Char`,
Python values reachable in option records as `PyVal`, and the process-wide
module state (`global_options`, `global_id`, `global_starting_time`,
`global_benchmark`, open streams, log output) as a `World` record threaded
explicitly through `Start` and `Stop`.
-/

/-- Python strings, modelled as lists of characters. -/
abbrev PyStr := List Char

/-- Embed a Lean string literal as a Python string. -/
def strL (s : String) : PyStr := s.toList

/-- Decimal rendering of a natural number (used by the `%i` and `%s`
format directives of the source). -/
def natStr (n : Nat) : PyStr := Nat.toDigits 10 n

/-- Decimal rendering of an integer. -/
def intStr (i : Int) : PyStr :=
  if i < 0 then '-' :: natStr i.natAbs else natStr i.natAbs

/-- Python `value.split(sep)` for a one-character separator `sep`:
`"".split(",") = [""]`, `"a,,b".split(",") = ["a","","b"]`. -/
def splitChar (sep : Char) : List Char → List (List Char)
  | [] => [[]]
  | c :: rest =>
    if c = sep then [] :: splitChar sep rest
    else
      match splitChar sep rest with
      | t :: ts => (c :: t) :: ts
      | [] => [[c]]

/-- Python `sep.join(parts)` for a one-character separator. -/
def joinSep (sep : Char) : List (List Char) → List Char
  | [] => []
  | [s] => s
  | s :: t :: rest => s ++ sep :: joinSep sep (t :: rest)

/-- The comprehension filter `if v != ""` used by
`AppendCommaOption.convert_value`: drop empty tokens. -/
def dropEmpty : List PyStr → List PyStr
  | [] => []
  | t :: ts => if t = [] then dropEmpty ts else t :: dropEmpty ts

theorem splitChar_ne_nil (sep : Char) (s : List Char) : splitChar sep s ≠ [] := by
  cases s with
  | nil => simp [splitChar]
  | cons c rest =>
    simp only [splitChar]
    split
    · simp
    · split <;> simp

theorem splitChar_no_sep (sep : Char) (s : List Char) (h : sep ∉ s) :
    splitChar sep s = [s] := by
  induction s with
  | nil => rfl
  | cons c rest ih =>
    have hcs : c ≠ sep := by
      intro hc; exact h (by simp [hc])
    have hrest : sep ∉ rest := by
      intro hr; exact h (by simp [hr])
    simp only [splitChar, if_neg hcs, ih hrest]

theorem splitChar_append_sep (sep : Char) (s r : List Char) (h : sep ∉ s) :
    splitChar sep (s ++ sep :: r) = s :: splitChar sep r := by
  induction s with
  | nil => simp [splitChar]
  | cons c rest ih =>
    have hcs : c ≠ sep := by
      intro hc; exact h (by simp [hc])
    have hrest : sep ∉ rest := by
      intro hr; exact h (by simp [hr])
    simp only [List.cons_append, splitChar, if_neg hcs, List.append_eq, ih hrest]

/-- Splitting the joined list recovers the parts, provided no part
contains the separator. -/
theorem splitChar_joinSep (sep : Char) (l : List (List Char)) (hne : l ≠ [])
    (h : ∀ s ∈ l, sep ∉ s) : splitChar sep (joinSep sep l) = l := by
  induction l with
  | nil => exact absurd rfl hne
  | cons s rest ih =>
    cases rest with
    | nil =>
      simp only [joinSep]
      exact splitChar_no_sep sep s (h s (by simp))
    | cons t ts =>
      simp only [joinSep]
      rw [splitChar_append_sep sep s (joinSep sep (t :: ts)) (h s (by simp))]
      rw [ih (by simp) (fun x hx => h x (by simp [hx]))]

theorem sep_mem_joinSep (sep : Char) (s t : List Char) (rest : List (List Char)) :
    sep ∈ joinSep sep (s :: t :: rest) := by
  simp [joinSep]

theorem dropEmpty_of_all_ne (l : List PyStr) (h : ∀ t ∈ l, t ≠ []) :
    dropEmpty l = l := by
  induction l with
  | nil => rfl
  | cons t ts ih =>
    simp only [dropEmpty, if_neg (h t (by simp))]
    rw [ih (fun x hx => h x (by simp [hx]))]

/-- Handles of open streams: the three process-default streams and files
opened by `openFile` (name, mode, gzip flag, and a fresh descriptor id so
that two separate `open` calls are distinct objects, as in Python). -/
inductive StreamH where
  | procStdin | procStdout | procStderr
  | fileH (name : PyStr) (mode : PyStr) (gz : Bool) (fd : Nat)
deriving DecidableEq

/-- Scalar Python values that can sit in an options record. -/
inductive PyAtom where
  | anone
  | abool (b : Bool)
  | aint (n : Int)
  | astr (s : PyStr)
  | astream (h : StreamH)
deriving DecidableEq

/-- Python values stored in option destinations: a scalar, or the list an
accumulate (append) option builds up.  List elements are always scalars
because they are results of `check_value`. -/
inductive PyVal where
  | atom (a : PyAtom)
  | plist (l : List PyAtom)
deriving DecidableEq

def pyNone : PyVal := .atom .anone
def pyS (s : PyStr) : PyVal := .atom (.astr s)
def pyI (n : Int) : PyVal := .atom (.aint n)
def pyB (b : Bool) : PyVal := .atom (.abool b)
def pstream (h : StreamH) : PyVal := .atom (.astream h)

/-- Python truthiness of the values above (`if global_options.timeit_file:`
and similar tests in the source). -/
def pyTruthy : PyVal → Bool
  | .atom .anone => false
  | .atom (.abool b) => b
  | .atom (.aint n) => n != 0
  | .atom (.astr s) => !s.isEmpty
  | .atom (.astream _) => true
  | .plist l => !l.isEmpty

/-- The comparison `global_options.loglevel >= n` (false on a non-integer,
which cannot arise after parsing). -/
def pyIntGE (v : PyVal) (n : Int) : Bool :=
  match v with
  | .atom (.aint m) => decide (n ≤ m)
  | _ => false

/-- Option destinations (`dest=` names) registered by `Start` plus the
representative script-defined accumulate option `method` from the spec's
scenarios (`--method=sort,crop`). -/
inductive Dest where
  | dloglevel | dtimeit_file | dtimeit_name | dtimeit_header | drandom_seed
  | dshort_help | dstdin | dstdlog | dstderr | dstdout | dlog2stderr | dmethod
deriving DecidableEq

/-- The options record (`optparse.Values`): one field per registered
destination. -/
structure Values where
  loglevel : PyVal
  timeit_file : PyVal
  timeit_name : PyVal
  timeit_header : PyVal
  random_seed : PyVal
  short_help : PyVal
  stdin : PyVal
  stdlog : PyVal
  stderr : PyVal
  stdout : PyVal
  log2stderr : PyVal
  method : PyVal
deriving DecidableEq

def Values.get (v : Values) : Dest → PyVal
  | .dloglevel => v.loglevel
  | .dtimeit_file => v.timeit_file
  | .dtimeit_name => v.timeit_name
  | .dtimeit_header => v.timeit_header
  | .drandom_seed => v.random_seed
  | .dshort_help => v.short_help
  | .dstdin => v.stdin
  | .dstdlog => v.stdlog
  | .dstderr => v.stderr
  | .dstdout => v.stdout
  | .dlog2stderr => v.log2stderr
  | .dmethod => v.method

def Values.set (v : Values) : Dest → PyVal → Values
  | .dloglevel, x => { v with loglevel := x }
  | .dtimeit_file, x => { v with timeit_file := x }
  | .dtimeit_name, x => { v with timeit_name := x }
  | .dtimeit_header, x => { v with timeit_header := x }
  | .drandom_seed, x => { v with random_seed := x }
  | .dshort_help, x => { v with short_help := x }
  | .dstdin, x => { v with stdin := x }
  | .dstdlog, x => { v with stdlog := x }
  | .dstderr, x => { v with stderr := x }
  | .dstdout, x => { v with stdout := x }
  | .dlog2stderr, x => { v with log2stderr := x }
  | .dmethod, x => { v with method := x }

/-- Option value types (`type="string"`, `type="int"`, or none for flags
and callbacks). -/
inductive OptType where
  | tstr | tint | tnone
deriving DecidableEq

/-- Option actions used by this program.  `helpAction` and `versionAction`
stand for the `-h` and `--version` options optparse itself adds;
`cbShortHelp` is the `-?` callback `callbackShortHelp`: all three print and
terminate the process. -/
inductive OptAction where
  | store | append | storeTrue | cbShortHelp | helpAction | versionAction
deriving DecidableEq

/-- An option declaration (`add_option`).  Every option this program
declares has `nargs == 1` (the optparse default), so `nargs` is not
modelled and `convert_value` below embeds its `nargs == 1` branch. -/
structure OptSpec where
  longs : List PyStr
  shorts : List PyStr
  dest : Dest
  otype : OptType
  action : OptAction
deriving DecidableEq

/-- Errors that abort parsing or the lifecycle: usage errors exit the
process with a nonzero status, `helpExit` with status 0; `attrError`
models the `AttributeError` Python raises when a non-stream value is used
as a stream; `outOfFuel` is unreachable for the fuel chosen below. -/
inductive PErr where
  | noSuchOption | ambiguousOption | badValue | missingValue | noValueAllowed
  | helpExit | attrError | indexError | outOfFuel
deriving DecidableEq

/-- `c.isDigit`-based decimal integer reader: the behaviour of optparse's
int conversion on plain decimal input (radix-prefixed forms such as `0x10`
are not used by any claim and are not modelled). -/
def parseDecDigits : List Char → Option Nat
  | [] => none
  | [c] => if c.isDigit then some (c.toNat - 48) else none
  | c :: c2 :: cs =>
    if c.isDigit then
      match parseDecDigits (c2 :: cs) with
      | some m => some ((c.toNat - 48) * 10 ^ (c2 :: cs).length + m)
      | none => none
    else none

def parseDec : PyStr → Option Int
  | '-' :: rest =>
    match parseDecDigits rest with
    | some n => some (-(n : Int))
    | none => none
  | s =>
    match parseDecDigits s with
    | some n => some (n : Int)
    | none => none

/-- `optparse.Option.check_value`: validate/convert one raw token
according to the option's type; failure is a usage error. -/
def check_value (o : OptSpec) (v : PyStr) : Except PErr PyAtom :=
  match o.otype with
  | .tstr => .ok (.astr v)
  | .tint =>
    match parseDec v with
    | some n => .ok (.aint n)
    | none => .error .badValue
  | .tnone => .ok (.astr v)

/-- The list comprehension
`[self.check_value(opt, v) for v in value.split(",") if v != ""]`. -/
def checkList (o : OptSpec) : List PyStr → Except PErr (List PyAtom)
  | [] => .ok []
  | t :: ts =>
    match check_value o t with
    | .error e => .error e
    | .ok a =>
      match checkList o ts with
      | .error e => .error e
      | .ok l => .ok (a :: l)

/-- `AppendCommaOption.convert_value` (source lines 405-420), specialised
to `nargs == 1` as holds for every option of this program: for an append
option whose raw value contains a comma, split on commas, drop empty
tokens and check each one; an empty raw value is returned unchecked;
otherwise check the single token.  A `None` value (option takes no
argument) falls through and returns Python `None`. -/
def convert_value (o : OptSpec) (value : Option PyStr) : Except PErr PyVal :=
  match value with
  | none => .ok (.atom .anone)
  | some v =>
    if o.action = .append then
      if ',' ∈ v then
        match checkList o (dropEmpty (splitChar ',' v)) with
        | .ok l => .ok (.plist l)
        | .error e => .error e
      else if v ≠ [] then
        match check_value o v with
        | .ok a => .ok (.atom a)
        | .error e => .error e
      else .ok (.atom (.astr v))
    else
      match check_value o v with
      | .ok a => .ok (.atom a)
      | .error e => .error e

/-- `optparse.Values.ensure_value(dest, [])` followed by list use: a
`None` attribute becomes `[]`, an existing list is reused, and anything
else would raise `AttributeError` on `.append`/`.extend`. -/
def ensureList : PyVal → Except PErr (List PyAtom)
  | .atom .anone => .ok []
  | .plist l => .ok l
  | _ => .error .attrError

/-- The base `optparse.Option.take_action` for the actions this program
uses. -/
def base_take_action (o : OptSpec) (value : PyVal) (vals : Values) :
    Except PErr Values :=
  match o.action with
  | .store => .ok (vals.set o.dest value)
  | .append =>
    match value with
    | .atom a =>
      match ensureList (vals.get o.dest) with
      | .ok l => .ok (vals.set o.dest (.plist (l ++ [a])))
      | .error e => .error e
    | .plist _ => .error .attrError
  | .storeTrue => .ok (vals.set o.dest (pyB true))
  | .cbShortHelp => .error .helpExit
  | .helpAction => .error .helpExit
  | .versionAction => .error .helpExit

/-- `AppendCommaOption.take_action` (source lines 424-430): an append
action whose converted value is a list extends the accumulated list;
everything else is delegated to the base class. -/
def take_action (o : OptSpec) (value : PyVal) (vals : Values) :
    Except PErr Values :=
  match o.action, value with
  | .append, .plist l =>
    match ensureList (vals.get o.dest) with
    | .ok cur => .ok (vals.set o.dest (.plist (cur ++ l)))
    | .error e => .error e
  | _, _ => base_take_action o value vals

/-- `optparse.Option.process`: convert the raw value, then act on it. -/
def processOpt (o : OptSpec) (value : Option PyStr) (vals : Values) :
    Except PErr Values :=
  match convert_value o value with
  | .error e => .error e
  | .ok v => take_action o v vals

/-- `OptionParser._match_long_opt` via `_match_abbrev`: an exact long-name
match wins; otherwise a unique long name having the supplied text as a
prefix is accepted, none is a bad option, several are ambiguous. -/
def matchLong (opts : List OptSpec) (s : PyStr) : Except PErr OptSpec :=
  match opts.find? (fun o => o.longs.contains s) with
  | some o => .ok o
  | none =>
    match opts.filter (fun o => o.longs.any (fun n => s.isPrefixOf n)) with
    | [o] => .ok o
    | [] => .error .noSuchOption
    | _ => .error .ambiguousOption

/-- `option.takes_value()`: the value-taking actions of this program. -/
def takesValue (o : OptSpec) : Bool :=
  match o.action with
  | .store => true
  | .append => true
  | _ => false

/-- Python `arg.split("=", 1)` driver: position of the first occurrence of
`sep`, with the pieces before and after it. -/
def splitOnFirst (sep : Char) : List Char → Option (List Char × List Char)
  | [] => none
  | c :: rest =>
    if c = sep then some ([], rest)
    else
      match splitOnFirst sep rest with
      | some (a, b) => some (c :: a, b)
      | none => none

/-- `OptionParser._process_long_opt`: split an explicit `=value`, match
the (possibly abbreviated) long name, then take the value either from the
`=` part or from the next argument.  The returned flag says whether one
element of `rest` was consumed. -/
def processLong (opts : List OptSpec) (arg : PyStr) (rest : List PyStr)
    (vals : Values) : Except PErr (Values × Bool) :=
  let p := splitOnFirst '=' arg
  let optStr := match p with | some (a, _) => a | none => arg
  let explicitVal : Option PyStr := match p with | some (_, b) => some b | none => none
  match matchLong opts optStr with
  | .error e => .error e
  | .ok o =>
    if takesValue o then
      match explicitVal with
      | some v =>
        match processOpt o (some v) vals with
        | .ok vals2 => .ok (vals2, false)
        | .error e => .error e
      | none =>
        match rest with
        | [] => .error .missingValue
        | v :: _ =>
          match processOpt o (some v) vals with
          | .ok vals2 => .ok (vals2, true)
          | .error e => .error e
    else
      match explicitVal with
      | some _ => .error .noValueAllowed
      | none =>
        match processOpt o none vals with
        | .ok vals2 => .ok (vals2, false)
        | .error e => .error e

def findShort (opts : List OptSpec) (s : PyStr) : Option OptSpec :=
  opts.find? (fun o => o.shorts.contains s)

/-- `OptionParser._process_short_opts`: walk the characters of a `-xyz`
cluster; a value-taking option either consumes the remaining characters of
the cluster as its value or pops the next argument.  Returns the updated
record and the remaining argument list. -/
def shortChain (opts : List OptSpec) :
    List Char → List PyStr → Values → Except PErr (Values × List PyStr)
  | [], rest, vals => .ok (vals, rest)
  | ch :: chs, rest, vals =>
    match findShort opts ['-', ch] with
    | none => .error .noSuchOption
    | some o =>
      if takesValue o then
        if chs ≠ [] then
          match processOpt o (some chs) vals with
          | .ok vals2 => .ok (vals2, rest)
          | .error e => .error e
        else
          match rest with
          | [] => .error .missingValue
          | v :: rest2 =>
            match processOpt o (some v) vals with
            | .ok vals2 => .ok (vals2, rest2)
            | .error e => .error e
      else
        match processOpt o none vals with
        | .ok vals2 => shortChain opts chs rest vals2
        | .error e => .error e

/-- `OptionParser._process_args` with interspersed arguments enabled (the
optparse default): a bare `--` ends option processing, `--x` is a long
option, `-x` (more than one character) a short cluster, anything else a
positional argument.  `fuel` bounds the number of iterations; each
iteration consumes at least the head argument, so the fuel chosen by
`parse_args` below never runs out. -/
def parseLoop (opts : List OptSpec) :
    Nat → Values → List PyStr → List PyStr → Except PErr (Values × List PyStr)
  | 0, _, _, _ => .error .outOfFuel
  | _ + 1, vals, largs, [] => .ok (vals, largs)
  | fuel + 1, vals, largs, arg :: rest =>
    if arg = strL "--" then .ok (vals, largs ++ rest)
    else
      match arg with
      | '-' :: '-' :: _ =>
        match processLong opts arg rest vals with
        | .error e => .error e
        | .ok (vals2, used) =>
          parseLoop opts fuel vals2 largs (if used then rest.drop 1 else rest)
      | '-' :: c2 :: cs =>
        match shortChain opts (c2 :: cs) rest vals with
        | .error e => .error e
        | .ok (vals2, rest2) => parseLoop opts fuel vals2 largs rest2
      | _ => parseLoop opts fuel vals (largs ++ [arg]) rest

/-- `OptionParser.parse_args(args)`: run the loop on the given argument
list starting from the defaults record. -/
def parse_args (opts : List OptSpec) (defaults : Values) (args : List PyStr) :
    Except PErr (Values × List PyStr) :=
  parseLoop opts (args.length + 1) defaults [] args

/-! The options registered for a `Start` run (source lines 638-704),
together with the two options optparse adds on parser construction and
the representative script-declared accumulate option `--method` used by
the spec's scenarios.  The `--no-usage` option is only added when
`--no-usage` is in the process's own `sys.argv` and is not modelled. -/

def helpOpt : OptSpec :=
  { longs := [strL "--help"], shorts := [strL "-h"], dest := .dshort_help,
    otype := .tnone, action := .helpAction }

def versionOpt : OptSpec :=
  { longs := [strL "--version"], shorts := [], dest := .dshort_help,
    otype := .tnone, action := .versionAction }

/-- The script-declared accumulate option of the spec's scenarios:
`parser.add_option("--method", dest="method", type="string",
action="append")`. -/
def methodOpt : OptSpec :=
  { longs := [strL "--method"], shorts := [], dest := .dmethod,
    otype := .tstr, action := .append }

/-- `--timeit`, `dest='timeit_file'`, `type="string"` (source line 640). -/
def timeitOpt : OptSpec :=
  { longs := [strL "--timeit"], shorts := [], dest := .dtimeit_file,
    otype := .tstr, action := .store }

def timeitNameOpt : OptSpec :=
  { longs := [strL "--timeit-name"], shorts := [], dest := .dtimeit_name,
    otype := .tstr, action := .store }

def timeitHeaderOpt : OptSpec :=
  { longs := [strL "--timeit-header"], shorts := [], dest := .dtimeit_header,
    otype := .tnone, action := .storeTrue }

def randomSeedOpt : OptSpec :=
  { longs := [strL "--random-seed"], shorts := [], dest := .drandom_seed,
    otype := .tint, action := .store }

def verboseOpt : OptSpec :=
  { longs := [strL "--verbose"], shorts := [strL "-v"], dest := .dloglevel,
    otype := .tint, action := .store }

def shortHelpOpt : OptSpec :=
  { longs := [], shorts := [strL "-?"], dest := .dshort_help,
    otype := .tnone, action := .cbShortHelp }

def stdinOpt : OptSpec :=
  { longs := [strL "--stdin"], shorts := [strL "-I"], dest := .dstdin,
    otype := .tstr, action := .store }

def logOpt : OptSpec :=
  { longs := [strL "--log"], shorts := [strL "-L"], dest := .dstdlog,
    otype := .tstr, action := .store }

def errorOpt : OptSpec :=
  { longs := [strL "--error"], shorts := [strL "-E"], dest := .dstderr,
    otype := .tstr, action := .store }

def stdoutOpt : OptSpec :=
  { longs := [strL "--stdout"], shorts := [strL "-S"], dest := .dstdout,
    otype := .tstr, action := .store }

def log2stderrOpt : OptSpec :=
  { longs := [strL "--log2stderr"], shorts := [], dest := .dlog2stderr,
    otype := .tnone, action := .storeTrue }

/-- All options of a `Start` run with `add_pipe_options=True`, in
registration order. -/
def startOpts : List OptSpec :=
  [helpOpt, versionOpt, methodOpt,
   timeitOpt, timeitNameOpt, timeitHeaderOpt,
   randomSeedOpt, verboseOpt, shortHelpOpt,
   stdinOpt, logOpt, errorOpt, stdoutOpt, log2stderrOpt]

/-- The defaults in force when `Start` calls `parse_args` (source lines
665-702): loglevel 0 when `quiet` else 1, `timeit_name='all'`, the
process-default streams for the four stream options, `log2stderr=False`,
and `None` for everything never given a default (such as `method`). -/
def defaultValues (quiet : Bool) : Values :=
  { loglevel := pyI (if quiet then 0 else 1)
    timeit_file := pyNone
    timeit_name := pyS (strL "all")
    timeit_header := pyNone
    random_seed := pyNone
    short_help := pyNone
    stdin := pstream .procStdin
    stdlog := pstream .procStdout
    stderr := pstream .procStderr
    stdout := pstream .procStdout
    log2stderr := pyB false
    method := pyNone }

/-- Generic `sep.join(parts)`. -/
def joinL (sep : PyStr) : List PyStr → PyStr
  | [] => []
  | [s] => s
  | s :: t :: rest => s ++ sep ++ joinL sep (t :: rest)

/-- `os.path.splitext(filename)[1]`: the extension from the last dot of
the name, or empty when there is none. -/
def fileExt (s : PyStr) : PyStr :=
  let r := s.reverse
  let pre := r.takeWhile (fun c => c != '.')
  if pre.length = r.length then [] else '.' :: pre.reverse

/-- `ext.lower() in (".gz", ".z")` from `openFile`. -/
def gzExt (name : PyStr) : Bool :=
  let e := (fileExt name).map Char.toLower
  e == strL ".gz" || e == strL ".z"

/-- `openFile(filename, mode)` (source lines 473-499, with the default
`create_dir=False` `Start` uses): gzip files are recognised by suffix; a
fresh descriptor id keeps distinct `open` calls distinct. -/
def openFileH (c : Nat) (name mode : PyStr) : StreamH × Nat :=
  (.fileH name mode (gzExt name) c, c + 1)

def pathOf : PyVal → PyStr
  | .atom (.astr s) => s
  | _ => []

/-- The stream-resolution block of `Start` with `add_pipe_options=True`
(source lines 717-730), in source order: a non-default stdout is opened
`"w"`; a non-default stderr is opened `"w"` unless it is the literal
string `"stderr"`, which is left untouched; a non-default log is opened
`"a"`, and otherwise `log2stderr` aliases the log to the (already
resolved) error stream; a non-default stdin is opened `"r"`. -/
def resolveStreams (v : Values) (c0 : Nat) : Values × Nat :=
  let po :=
    if v.stdout = pstream .procStdout then (v.stdout, c0)
    else
      let r := openFileH c0 (pathOf v.stdout) (strL "w")
      (pstream r.1, r.2)
  let pe :=
    if v.stderr = pstream .procStderr then (v.stderr, po.2)
    else if v.stderr = pyS (strL "stderr") then (v.stderr, po.2)
    else
      let r := openFileH po.2 (pathOf v.stderr) (strL "w")
      (pstream r.1, r.2)
  let pl :=
    if v.stdlog ≠ pstream .procStdout then
      let r := openFileH pe.2 (pathOf v.stdlog) (strL "a")
      (pstream r.1, r.2)
    else if pyTruthy v.log2stderr then (pe.1, pe.2)
    else (v.stdlog, pe.2)
  let pi :=
    if v.stdin = pstream .procStdin then (v.stdin, pl.2)
    else
      let r := openFileH pl.2 (pathOf v.stdin) (strL "r")
      (pstream r.1, r.2)
  ({ v with stdout := po.1, stderr := pe.1, stdlog := pl.1, stdin := pi.1 }, pi.2)

/-- Rendering of `time.asctime(time.localtime(t))`: the external time
formatting is abstracted to an injective rendering of the clock value. -/
def asctime (t : Nat) : PyStr := strL "time-" ++ natStr t

/-- Rendering of `"%5.2f" % x` applied to resource counters, which are
modelled as whole seconds; the floating-point formatting is abstracted. -/
def fmt52 (n : Nat) : PyStr := natStr n ++ strL ".00"

def streamRepr : StreamH → PyStr
  | .procStdin => strL "<stdin>"
  | .procStdout => strL "<stdout>"
  | .procStderr => strL "<stderr>"
  | .fileH name mode _ fd =>
    strL "<open file " ++ name ++ strL ", mode " ++ mode ++ strL " at " ++
      natStr fd ++ strL ">"

/-- Python `str(v)` for the values an options record can hold. -/
def atomStr : PyAtom → PyStr
  | .anone => strL "None"
  | .abool true => strL "True"
  | .abool false => strL "False"
  | .aint n => intStr n
  | .astr s => s
  | .astream h => streamRepr h

def q39 : Char := Char.ofNat 39

/-- `repr()` of a list element inside `str(somelist)`: strings are quoted. -/
def atomRepr : PyAtom → PyStr
  | .astr s => q39 :: (s ++ [q39])
  | a => atomStr a

def pyStrOf : PyVal → PyStr
  | .atom a => atomStr a
  | .plist l => strL "[" ++ joinL (strL ", ") (l.map atomRepr) ++ strL "]"

/-- The Python-2 `encode("string_escape")` applied by `getParams`,
restricted to the escapes relevant to printable option values. -/
def escChar (c : Char) : PyStr :=
  if c = '\\' then strL "\\\\"
  else if c = '\n' then strL "\\n"
  else if c = '\t' then strL "\\t"
  else if c = '\r' then strL "\\r"
  else [c]

def stringEscape (s : PyStr) : PyStr := s.foldr (fun c acc => escChar c ++ acc) []

/-- `"%-40s" % name`. -/
def padTo (n : Nat) (s : PyStr) : PyStr := s ++ List.replicate (n - s.length) ' '

/-- One `"# %-40s: %s"` line of `getParams`. -/
def paramLine (name : PyStr) (v : PyVal) : PyStr :=
  strL "# " ++ padTo 40 name ++ strL ": " ++ stringEscape (pyStrOf v)

/-- `getParams(options)` (source lines 517-536): every option name/value
pair, alphabetically sorted by name (the sorted order of this fixed field
set is written out), one comment line each. -/
def getParams (v : Values) : PyStr :=
  joinL (strL "\n")
    [paramLine (strL "log2stderr") v.log2stderr,
     paramLine (strL "loglevel") v.loglevel,
     paramLine (strL "method") v.method,
     paramLine (strL "random_seed") v.random_seed,
     paramLine (strL "short_help") v.short_help,
     paramLine (strL "stderr") v.stderr,
     paramLine (strL "stdin") v.stdin,
     paramLine (strL "stdlog") v.stdlog,
     paramLine (strL "stdout") v.stdout,
     paramLine (strL "timeit_file") v.timeit_file,
     paramLine (strL "timeit_header") v.timeit_header,
     paramLine (strL "timeit_name") v.timeit_name]

/-- The process environment read by the lifecycle: `sys.argv`,
`os.uname()` fields, the pid, the four `os.times()[:4]` counters and the
working directory. -/
structure SysEnv where
  sys_argv : List PyStr
  host : PyStr
  osSystem : PyStr
  osRelease : PyStr
  osVersion : PyStr
  osMachine : PyStr
  pid : Nat
  times4 : List Nat
  cwd : PyStr
deriving DecidableEq

/-- The level handed to `logging.basicConfig`. -/
inductive LogCfg where
  | unset | lvlError | lvlInfo | lvlDebug
deriving DecidableEq

/-- The module-level state of `Utilities.py` plus the observable effects
of a run: what was written to the log stream, which streams were closed,
and what was appended to the timeit ledger file. -/
structure World where
  env : SysEnv
  now : Nat
  global_id : PyStr
  global_starting_time : Nat
  global_options : Values
  global_args : List PyStr
  global_benchmark : List (PyStr × Nat)
  nextFd : Nat
  logWrites : List (StreamH × PyStr)
  closed : List StreamH
  timeitWrites : List PyStr
  randomSeeded : Option Int
  logCfg : LogCfg
  logFmtCommented : Bool
deriving DecidableEq

/-- `getHeader()` (source lines 502-514) with the job identifier as an
explicit argument: `Start` passes `global_id`. -/
def getHeaderOf (e : SysEnv) (now : Nat) (jid : PyStr) : PyStr :=
  strL "# output generated by " ++ joinL (strL " ") e.sys_argv ++
  strL "\n# job started at " ++ asctime now ++ strL " on " ++ e.host ++
  strL " -- " ++ jid ++
  strL "\n# pid: " ++ natStr e.pid ++ strL ", system: " ++ e.osSystem ++
  strL " " ++ e.osRelease ++ strL " " ++ e.osVersion ++ strL " " ++ e.osMachine

/-- `getFooter()` (source lines 539-547) with the job identifier as an
explicit argument: `Stop` passes `global_id`. -/
def getFooterOf (e : SysEnv) (now start : Nat) (jid : PyStr) : PyStr :=
  strL "# job finished in " ++ natStr (now - start) ++ strL " seconds at " ++
  asctime now ++ strL " -- " ++ joinL (strL " ") (e.times4.map fmt52) ++
  strL " -- " ++ jid

/-- A `.write(s)` on an option value: only an open stream accepts it. -/
def writeLog (v : PyVal) (s : PyStr) (ws : List (StreamH × PyStr)) :
    Except PErr (List (StreamH × PyStr)) :=
  match v with
  | .atom (.astream h) => .ok (ws ++ [(h, s)])
  | _ => .error .attrError

def writeLogMany (v : PyVal) (lines : List PyStr) (ws : List (StreamH × PyStr)) :
    Except PErr (List (StreamH × PyStr)) :=
  match lines with
  | [] => .ok ws
  | s :: rest =>
    match writeLog v s ws with
    | .error e => .error e
    | .ok ws2 => writeLogMany v rest ws2

/-- Exception-propagating sequencing: run the next statement only when the
previous one did not raise. -/
def estep {A B : Type} (x : Except PErr A) (f : A → Except PErr B) :
    Except PErr B :=
  match x with
  | .error e => .error e
  | .ok a => f a

theorem estep_ok_inv {A B : Type} (x : Except PErr A) (f : A → Except PErr B)
    (b : B) (h : estep x f = .ok b) : ∃ a, x = .ok a ∧ f a = .ok b := by
  cases x with
  | error e => exact Except.noConfusion h
  | ok a => exact ⟨a, rfl, h⟩

/-- The post-parse body of `Start` (source lines 714-771): seed the random
generator when a seed was parsed, resolve the stream options, write the
header and the sorted parameter dump to the log stream when the loglevel
is at least 1, and configure logging (level from the loglevel, a
comment-prefixed record format exactly when stdout and the log stream are
the same object). -/
def startCore (w : World) (vals : Values) (args : List PyStr) :
    Except PErr World :=
  let seeded := match vals.random_seed with
    | .atom (.aint n) => some n
    | _ => w.randomSeeded
  let rc := resolveStreams vals w.nextFd
  let v2 := rc.1
  let lvl := if v2.loglevel = pyI 0 then LogCfg.lvlError
             else if v2.loglevel = pyI 1 then LogCfg.lvlInfo
             else LogCfg.lvlDebug
  let base := { w with
    global_options := v2
    global_args := args
    nextFd := rc.2
    randomSeeded := seeded
    logCfg := lvl
    logFmtCommented := decide (v2.stdout = v2.stdlog) }
  if pyIntGE v2.loglevel 1 then
    match writeLog v2.stdlog (getHeaderOf w.env w.now w.global_id ++ strL "\n")
        base.logWrites with
    | .error e => .error e
    | .ok ws1 =>
      match writeLog v2.stdlog (getParams v2 ++ strL "\n") ws1 with
      | .error e => .error e
      | .ok ws2 => .ok { base with logWrites := ws2 }
  else .ok base

/-- `Start(parser, argv, quiet, add_pipe_options=True)` (source lines
566-773): record the starting time, parse `argv[1:]` against the
registered options and the defaults, then run the post-parse body.  A
parse failure is a usage error that terminates the process. -/
def Start (w : World) (argv : List PyStr) (quiet : Bool) : Except PErr World :=
  let w1 := { w with global_starting_time := w.now }
  estep (parse_args startOpts (defaultValues quiet) (argv.drop 1)) fun pr =>
    startCore w1 pr.1 pr.2

/-- Rendering of `100.0 * value / t` under the whole-second abstraction
of the benchmark ledger. -/
def benchPct (value t : Nat) : PyStr := natStr (value * 100 / t)

/-- The bordered benchmark table `Stop` prints (source lines 783-793). -/
def benchLines (bench : List (PyStr × Nat)) (t : Nat) : List PyStr :=
  strL "######### Time spent in benchmarked functions #########\n" ::
  strL "# function\tseconds\tpercent\n" ::
  bench.map (fun p =>
    strL "# " ++ p.1 ++ strL "\t" ++ natStr p.2 ++ strL "\t" ++
      benchPct p.2 t ++ strL "%\n") ++
  [strL "#######################################################\n"]

/-- A `.close()` on an option value: only an open stream accepts it. -/
def closeStream (v : PyVal) (w : World) : Except PErr World :=
  match v with
  | .atom (.astream h) => .ok { w with closed := w.closed ++ [h] }
  | _ => .error .attrError

def timeitHeaderRow : PyStr :=
  joinL (strL "\t")
    [strL "name", strL "wall", strL "user", strL "sys", strL "cuser",
     strL "csys", strL "host", strL "system", strL "release",
     strL "machine", strL "start", strL "end", strL "path", strL "cmd"] ++
  strL "\n"

/-- The command field of the timeit row (source lines 823-828): under
`run.py` the positional arguments are quoted and joined, otherwise the
script name is used. -/
def timeitCmd (w : World) : Except PErr PyStr :=
  match w.env.sys_argv with
  | [] => .error .indexError
  | a :: _ =>
    if a = strL "run.py" then
      match w.global_args with
      | [] => .error .indexError
      | c :: cs =>
        .ok (if cs.isEmpty then c
             else c ++ (' ' :: q39 :: joinL (q39 :: ' ' :: [q39]) cs) ++ [q39])
    else .ok a

/-- The timeit-ledger block of `Stop` (source lines 808-839): when a
timeit file is configured, append an optional header row and then one
tab-separated row with the run's aggregate timing and invocation. -/
def timeitBlock (w : World) : Except PErr World :=
  let v := w.global_options
  if pyTruthy v.timeit_file then
    match timeitCmd w with
    | .error e => .error e
    | .ok cmd =>
      let hdrRows := if pyTruthy v.timeit_header then [timeitHeaderRow] else []
      let row := joinL (strL "\t")
        ([pyStrOf v.timeit_name, fmt52 (w.now - w.global_starting_time)] ++
         w.env.times4.map fmt52 ++
         [w.env.host, w.env.osSystem, w.env.osRelease, w.env.osMachine,
          asctime w.global_starting_time, asctime w.now, w.env.cwd, cmd]) ++
        strL "\n"
      .ok { w with timeitWrites := w.timeitWrites ++ hdrRows ++ [row] }
  else .ok w

/-- The benchmark-table block of `Stop` (source lines 783-793): printed
when the loglevel is at least 1 and the ledger is non-empty. -/
def stopBench (w : World) : Except PErr World :=
  if pyIntGE w.global_options.loglevel 1 && !w.global_benchmark.isEmpty then
    match writeLogMany w.global_options.stdlog
        (benchLines w.global_benchmark (w.now - w.global_starting_time))
        w.logWrites with
    | .error e => .error e
    | .ok ws => .ok { w with logWrites := ws }
  else .ok w

/-- The footer write of `Stop` (source lines 795-796). -/
def stopFooter (w : World) : Except PErr World :=
  if pyIntGE w.global_options.loglevel 1 then
    match writeLog w.global_options.stdlog
        (getFooterOf w.env w.now w.global_starting_time w.global_id ++
          strL "\n")
        w.logWrites with
    | .error e => .error e
    | .ok ws => .ok { w with logWrites := ws }
  else .ok w

/-- `if global_options.stdout != sys.stdout: global_options.stdout.close()`
(source lines 799-800). -/
def stopCloseOut (w : World) : Except PErr World :=
  if w.global_options.stdout = pstream .procStdout then .ok w
  else closeStream w.global_options.stdout w

/-- `if global_options.stderr != sys.stderr: global_options.stderr.close()`
(source lines 805-806).  The log stream is deliberately never closed
(source lines 801-803 are commented out). -/
def stopCloseErr (w : World) : Except PErr World :=
  if w.global_options.stderr = pstream .procStderr then .ok w
  else closeStream w.global_options.stderr w

/-- `Stop()` (source lines 776-839): the benchmark table, the footer, the
two conditional closes, then the timeit ledger, in source order.  No stage
changes `global_options`, so each reads the same record the source's
single `global_options` holds throughout. -/
def Stop (w : World) : Except PErr World :=
  estep (stopBench w) fun wa =>
  estep (stopFooter wa) fun wb =>
  estep (stopCloseOut wb) fun wc =>
  estep (stopCloseErr wc) timeitBlock

/-- A concrete process environment for witness runs. -/
def env0 : SysEnv :=
  { sys_argv := [strL "prog"]
    host := strL "host"
    osSystem := strL "Linux"
    osRelease := strL "rel"
    osVersion := strL "ver"
    osMachine := strL "x86"
    pid := 42
    times4 := [1, 2, 3, 4]
    cwd := strL "/work" }

/-- A concrete world as it stands at module import time: fresh id, empty
benchmark ledger, nothing written, nothing closed. -/
def w0 : World :=
  { env := env0
    now := 100
    global_id := strL "JOB-0001"
    global_starting_time := 0
    global_options := defaultValues false
    global_args := []
    global_benchmark := []
    nextFd := 0
    logWrites := []
    closed := []
    timeitWrites := []
    randomSeeded := none
    logCfg := .unset
    logFmtCommented := false }

deriving instance DecidableEq for Except

def closedAdd (v : PyVal) (proc : StreamH) : List StreamH :=
  match v with
  | .atom (.astream h) => if h = proc then [] else [h]
  | _ => []

theorem closeStream_ok_inv (v : PyVal) (w wc : World)
    (h : closeStream v w = .ok wc) :
    ∃ hs, v = pstream hs ∧ wc = { w with closed := w.closed ++ [hs] } := by
  cases v with
  | atom a =>
    cases a with
    | astream hs => exact ⟨hs, rfl, by cases h; rfl⟩
    | anone => exact Except.noConfusion h
    | abool b => exact Except.noConfusion h
    | aint n => exact Except.noConfusion h
    | astr s => exact Except.noConfusion h
  | plist l => exact Except.noConfusion h

theorem stopCloseOut_ok_inv (w wc : World) (h : stopCloseOut w = .ok wc) :
    wc = { w with closed := w.closed ++ closedAdd w.global_options.stdout .procStdout } := by
  unfold stopCloseOut at h
  split at h
  case isTrue heq =>
    cases h
    rw [heq]
    simp [closedAdd, pstream]
  case isFalse hne =>
    obtain ⟨hs, hv, hw⟩ := closeStream_ok_inv _ _ _ h
    subst hw
    rw [hv] at hne ⊢
    have hns : hs ≠ .procStdout := fun hh => hne (by rw [hh])
    simp [closedAdd, pstream, if_neg hns]

theorem stopCloseErr_ok_inv (w wc : World) (h : stopCloseErr w = .ok wc) :
    wc = { w with closed := w.closed ++ closedAdd w.global_options.stderr .procStderr } := by
  unfold stopCloseErr at h
  split at h
  case isTrue heq =>
    cases h
    rw [heq]
    simp [closedAdd, pstream]
  case isFalse hne =>
    obtain ⟨hs, hv, hw⟩ := closeStream_ok_inv _ _ _ h
    subst hw
    rw [hv] at hne ⊢
    have hns : hs ≠ .procStderr := fun hh => hne (by rw [hh])
    simp [closedAdd, pstream, if_neg hns]

theorem writeLog_ok_inv (v : PyVal) (s : PyStr) (ws ws2 : List (StreamH × PyStr))
    (h : writeLog v s ws = .ok ws2) :
    ∃ hs, v = pstream hs ∧ ws2 = ws ++ [(hs, s)] := by
  cases v with
  | atom a =>
    cases a with
    | astream hs => exact ⟨hs, rfl, by cases h; rfl⟩
    | anone => exact Except.noConfusion h
    | abool b => exact Except.noConfusion h
    | aint n => exact Except.noConfusion h
    | astr s2 => exact Except.noConfusion h
  | plist l => exact Except.noConfusion h

theorem writeLogMany_ok_extend (v : PyVal) (lines : List PyStr) :
    ∀ ws ws2, writeLogMany v lines ws = .ok ws2 → ∃ extra, ws2 = ws ++ extra := by
  induction lines with
  | nil =>
    intro ws ws2 h
    cases h
    exact ⟨[], by simp⟩
  | cons s rest ih =>
    intro ws ws2 h
    simp only [writeLogMany] at h
    revert h
    cases hw : writeLog v s ws with
    | error e => intro h; exact Except.noConfusion h
    | ok wsa =>
      intro h
      obtain ⟨hs, hv, hwa⟩ := writeLog_ok_inv _ _ _ _ hw
      obtain ⟨extra, hex⟩ := ih wsa ws2 h
      exact ⟨[(hs, s)] ++ extra, by rw [hex, hwa]; simp⟩

theorem stopFooter_ok_inv (w wb : World) (h : stopFooter w = .ok wb) :
    wb.global_options = w.global_options ∧ wb.closed = w.closed ∧
    wb.env = w.env ∧ wb.now = w.now ∧
    wb.global_starting_time = w.global_starting_time ∧
    wb.global_id = w.global_id ∧ wb.timeitWrites = w.timeitWrites ∧
    (pyIntGE w.global_options.loglevel 1 = true →
      ∃ hs, w.global_options.stdlog = pstream hs ∧
        wb.logWrites = w.logWrites ++
          [(hs, getFooterOf w.env w.now w.global_starting_time w.global_id ++
            strL "\n")]) ∧
    (pyIntGE w.global_options.loglevel 1 = false →
      wb.logWrites = w.logWrites) := by
  unfold stopFooter at h
  split at h
  case isTrue hge =>
    revert h
    cases hw : writeLog w.global_options.stdlog
        (getFooterOf w.env w.now w.global_starting_time w.global_id ++ strL "\n")
        w.logWrites with
    | error e => intro h; exact Except.noConfusion h
    | ok ws =>
      intro h
      cases h
      obtain ⟨hs, hv, hws⟩ := writeLog_ok_inv _ _ _ _ hw
      refine ⟨rfl, rfl, rfl, rfl, rfl, rfl, rfl, ?_, ?_⟩
      · intro _
        exact ⟨hs, hv, hws⟩
      · intro hlt
        rw [hge] at hlt
        cases hlt
  case isFalse hge =>
    cases h
    refine ⟨rfl, rfl, rfl, rfl, rfl, rfl, rfl, ?_, ?_⟩
    · intro hge2
      simp only [Bool.not_eq_true] at hge
      rw [hge] at hge2
      cases hge2
    · intro _
      rfl

theorem stopBench_ok_inv (w wa : World) (h : stopBench w = .ok wa) :
    wa.global_options = w.global_options ∧ wa.closed = w.closed ∧
    wa.env = w.env ∧ wa.now = w.now ∧
    wa.global_starting_time = w.global_starting_time ∧
    wa.global_id = w.global_id ∧ wa.timeitWrites = w.timeitWrites ∧
    wa.global_benchmark = w.global_benchmark ∧
    (∃ extra, wa.logWrites = w.logWrites ++ extra) ∧
    (pyIntGE w.global_options.loglevel 1 = false →
      wa.logWrites = w.logWrites) := by
  unfold stopBench at h
  split at h
  case isTrue hcond =>
    revert h
    cases hw : writeLogMany w.global_options.stdlog
        (benchLines w.global_benchmark (w.now - w.global_starting_time))
        w.logWrites with
    | error e => intro h; exact Except.noConfusion h
    | ok ws =>
      intro h
      cases h
      obtain ⟨extra, hex⟩ := writeLogMany_ok_extend _ _ _ _ hw
      refine ⟨rfl, rfl, rfl, rfl, rfl, rfl, rfl, rfl, ⟨extra, hex⟩, ?_⟩
      intro hlt
      rw [Bool.and_eq_true] at hcond
      rw [hcond.1] at hlt
      cases hlt
  case isFalse hcond =>
    cases h
    exact ⟨rfl, rfl, rfl, rfl, rfl, rfl, rfl, rfl, ⟨[], by simp⟩, fun _ => rfl⟩

theorem timeitBlock_ok_inv (w wd : World) (h : timeitBlock w = .ok wd) :
    wd.global_options = w.global_options ∧ wd.closed = w.closed ∧
    wd.logWrites = w.logWrites := by
  simp only [timeitBlock] at h
  by_cases hc : pyTruthy w.global_options.timeit_file = true
  · rw [if_pos hc] at h
    revert h
    cases hcmd : timeitCmd w with
    | error e => intro h; exact Except.noConfusion h
    | ok cmd =>
      intro h
      cases h
      exact ⟨rfl, rfl, rfl⟩
  · rw [if_neg hc] at h
    cases h
    exact ⟨rfl, rfl, rfl⟩

theorem Stop_ok_inv (w w2 : World) (h : Stop w = .ok w2) :
    (∀ x ∈ w.logWrites, x ∈ w2.logWrites) ∧
    (pyIntGE w.global_options.loglevel 1 = true →
      ∃ hs, w.global_options.stdlog = pstream hs ∧
        (hs, getFooterOf w.env w.now w.global_starting_time w.global_id ++
          strL "\n") ∈ w2.logWrites) ∧
    (pyIntGE w.global_options.loglevel 1 = false →
      w2.logWrites = w.logWrites) ∧
    w2.closed = w.closed ++ closedAdd w.global_options.stdout .procStdout ++
      closedAdd w.global_options.stderr .procStderr := by
  simp only [Stop] at h
  obtain ⟨wa, ha, h⟩ := estep_ok_inv _ _ _ h
  obtain ⟨wb, hb, h⟩ := estep_ok_inv _ _ _ h
  obtain ⟨wc, hc, h⟩ := estep_ok_inv _ _ _ h
  obtain ⟨wd, hd, h⟩ := estep_ok_inv _ _ _ h
  obtain ⟨hao, hacl, haenv, hanow, hast, haid, _, habm, ⟨extraA, halw⟩, halw0⟩ :=
    stopBench_ok_inv _ _ ha
  obtain ⟨hbo, hbcl, hbenv, hbnow, hbst, hbid, _, hbw1, hbw0⟩ :=
    stopFooter_ok_inv _ _ hb
  have hcw := stopCloseOut_ok_inv _ _ hc
  have hdw := stopCloseErr_ok_inv _ _ hd
  obtain ⟨hto, htcl, htlw⟩ := timeitBlock_ok_inv _ _ h
  subst hcw
  subst hdw
  simp only at htcl htlw hto
  constructor
  · intro x hx
    rw [htlw]
    by_cases hge : pyIntGE w.global_options.loglevel 1 = true
    · obtain ⟨hs, _, hbw⟩ := hbw1 (by rw [hao]; exact hge)
      rw [hbw, halw]
      simp [hx]
    · have hb0 := hbw0 (by rw [hao]; simp only [Bool.not_eq_true] at hge ⊢; exact hge)
      rw [hb0, halw0 (by simp only [Bool.not_eq_true] at hge ⊢; exact hge)]
      exact hx
  constructor
  · intro hge
    obtain ⟨hs, hlog, hbw⟩ := hbw1 (by rw [hao]; exact hge)
    refine ⟨hs, by rw [← hao]; exact hlog, ?_⟩
    rw [htlw, hbw]
    rw [haenv, hanow, hast, haid]
    simp
  constructor
  · intro hge
    rw [htlw, hbw0 (by rw [hao]; exact hge), halw0 hge]
  · rw [htcl]
    rw [hbcl, hacl, hbo, hao]

theorem startCore_ok_inv (w : World) (vals : Values) (args : List PyStr)
    (w1 : World) (h : startCore w vals args = .ok w1) :
    w1.global_options = (resolveStreams vals w.nextFd).1 ∧
    w1.global_args = args ∧
    w1.global_id = w.global_id ∧
    w1.global_starting_time = w.global_starting_time ∧
    w1.env = w.env ∧ w1.now = w.now ∧
    w1.global_benchmark = w.global_benchmark ∧
    w1.closed = w.closed ∧
    (pyIntGE ((resolveStreams vals w.nextFd).1).loglevel 1 = true →
      ∃ hs, ((resolveStreams vals w.nextFd).1).stdlog = pstream hs ∧
        w1.logWrites = w.logWrites ++
          [(hs, getHeaderOf w.env w.now w.global_id ++ strL "\n"),
           (hs, getParams (resolveStreams vals w.nextFd).1 ++ strL "\n")]) ∧
    (pyIntGE ((resolveStreams vals w.nextFd).1).loglevel 1 = false →
      w1.logWrites = w.logWrites) := by
  simp only [startCore] at h
  split at h
  case isTrue hge =>
    split at h
    case h_1 e hw1 => cases h
    case h_2 ws1 hw1 =>
      split at h
      case h_1 e hw2 => cases h
      case h_2 ws2 hw2 =>
        cases h
        refine ⟨rfl, rfl, rfl, rfl, rfl, rfl, rfl, rfl, ?_, ?_⟩
        · intro _
          revert hw1 hw2
          cases hlog : ((resolveStreams vals w.nextFd).1).stdlog with
          | atom a =>
            cases a with
            | astream hs =>
              intro hw1 hw2
              simp only [writeLog] at hw1 hw2
              cases hw1; cases hw2
              exact ⟨hs, rfl, by simp⟩
            | anone => intro hw1 _; exact Except.noConfusion hw1
            | abool b => intro hw1 _; exact Except.noConfusion hw1
            | aint n => intro hw1 _; exact Except.noConfusion hw1
            | astr s => intro hw1 _; exact Except.noConfusion hw1
          | plist l => intro hw1 _; exact Except.noConfusion hw1
        · intro hlt
          rw [hge] at hlt
          cases hlt
  case isFalse hge =>
    cases h
    refine ⟨rfl, rfl, rfl, rfl, rfl, rfl, rfl, rfl, ?_, ?_⟩
    · intro hge2
      simp only [Bool.not_eq_true] at hge
      rw [hge] at hge2
      cases hge2
    · intro _
      rfl

theorem Start_ok_inv (w w1 : World) (argv : List PyStr) (quiet : Bool)
    (h : Start w argv quiet = .ok w1) :
    ∃ vals args,
      parse_args startOpts (defaultValues quiet) (argv.drop 1) =
        .ok (vals, args) ∧
      w1.global_options = (resolveStreams vals w.nextFd).1 ∧
      w1.global_args = args ∧
      w1.global_id = w.global_id ∧
      w1.global_starting_time = w.now ∧
      w1.env = w.env ∧ w1.now = w.now ∧
      w1.global_benchmark = w.global_benchmark ∧
      w1.closed = w.closed ∧
      (pyIntGE w1.global_options.loglevel 1 = true →
        ∃ hs, w1.global_options.stdlog = pstream hs ∧
          w1.logWrites = w.logWrites ++
            [(hs, getHeaderOf w.env w.now w.global_id ++ strL "\n"),
             (hs, getParams w1.global_options ++ strL "\n")]) ∧
      (pyIntGE w1.global_options.loglevel 1 = false →
        w1.logWrites = w.logWrites) := by
  simp only [Start] at h
  obtain ⟨pr, hp, h⟩ := estep_ok_inv _ _ _ h
  obtain ⟨vals, args⟩ := pr
  obtain ⟨h1, h2, h3, h4, h5, h6, h7, h8, h9, h10⟩ :=
    startCore_ok_inv _ _ _ _ h
  refine ⟨vals, args, hp, by simpa using h1, h2, by simpa using h3,
    by simpa using h4, by simpa using h5, by simpa using h6,
    by simpa using h7, by simpa using h8, ?_, ?_⟩
  · intro hge
    rw [h1] at hge
    obtain ⟨hs, hlog, hlw⟩ := h9 (by simpa using hge)
    refine ⟨hs, by rw [h1]; simpa using hlog, ?_⟩
    rw [h1]
    simpa using hlw
  · intro hge
    rw [h1] at hge
    simpa using h10 (by simpa using hge)

def okW (r : Except PErr World) : World :=
  match r with
  | .ok w => w
  | .error _ => w0

/-- C4: in a run with loglevel at least 1, the job identifier printed in
the header line written by `Start` is the same identifier printed in the
footer line written by `Stop`: one `jid` occupies the identifier slot of
both rendered lines. -/
theorem C4_header_footer_share_job_id (w w1 w2 : World) (argv : List PyStr)
    (quiet : Bool) (h1 : Start w argv quiet = .ok w1) (h2 : Stop w1 = .ok w2)
    (hl : pyIntGE w1.global_options.loglevel 1 = true) :
    ∃ jid hh hf,
      (hh, getHeaderOf w.env w.now jid ++ strL "\n") ∈ w2.logWrites ∧
      (hf, getFooterOf w1.env w1.now w1.global_starting_time jid ++ strL "\n")
        ∈ w2.logWrites := by
  obtain ⟨vals, args, hp, ho, hargs, hid, hst, henv, hnow, hbm, hcl, hw1, hw0⟩ :=
    Start_ok_inv _ _ _ _ h1
  obtain ⟨hmono, hfoot, _, _⟩ := Stop_ok_inv _ _ h2
  obtain ⟨hs, hlog, hlw⟩ := hw1 hl
  obtain ⟨hs2, hlog2, hmem⟩ := hfoot hl
  refine ⟨w.global_id, hs, hs2, ?_, ?_⟩
  · apply hmono
    rw [hlw]
    simp
  · rw [← hid]
    exact hmem

def w4a : World := okW (Start w0 [strL "prog"] false)
def w4b : World := okW (Stop w4a)

theorem C4_witness :
    ∃ jid hh hf,
      (hh, getHeaderOf w0.env w0.now jid ++ strL "\n") ∈ w4b.logWrites ∧
      (hf, getFooterOf w4a.env w4a.now w4a.global_starting_time jid ++
        strL "\n") ∈ w4b.logWrites :=
  C4_header_footer_share_job_id w0 w4a w4b [strL "prog"] false
    (by decide) (by decide) (by decide)

/-- C6: a run whose parsed loglevel is 0 writes neither the header nor the
footer to the log stream (nothing is written at all); a run whose parsed
loglevel is at least 1 writes both. -/
theorem C6_loglevel_gates_header_footer (w w1 w2 : World) (argv : List PyStr)
    (quiet : Bool) (h1 : Start w argv quiet = .ok w1)
    (h2 : Stop w1 = .ok w2) :
    (w1.global_options.loglevel = pyI 0 → w2.logWrites = w.logWrites) ∧
    (pyIntGE w1.global_options.loglevel 1 = true →
      (∃ hh, (hh, getHeaderOf w.env w.now w.global_id ++ strL "\n")
        ∈ w2.logWrites) ∧
      (∃ hf, (hf, getFooterOf w1.env w1.now w1.global_starting_time
        w1.global_id ++ strL "\n") ∈ w2.logWrites)) := by
  obtain ⟨vals, args, hp, ho, hargs, hid, hst, henv, hnow, hbm, hcl, hw1, hw0⟩ :=
    Start_ok_inv _ _ _ _ h1
  obtain ⟨hmono, hfoot, hnof, _⟩ := Stop_ok_inv _ _ h2
  constructor
  · intro h0
    have hge : pyIntGE w1.global_options.loglevel 1 = false := by
      rw [h0]; rfl
    rw [hnof hge, hw0 hge]
  · intro hge
    obtain ⟨hs, hlog, hlw⟩ := hw1 hge
    obtain ⟨hs2, hlog2, hmem⟩ := hfoot hge
    exact ⟨⟨hs, hmono _ (by rw [hlw]; simp)⟩, ⟨hs2, hmem⟩⟩

def w6a : World := okW (Start w0 [strL "prog"] true)
def w6b : World := okW (Stop w6a)

theorem C6_witness :
    (w6a.global_options.loglevel = pyI 0 → w6b.logWrites = w0.logWrites) ∧
    (pyIntGE w6a.global_options.loglevel 1 = true →
      (∃ hh, (hh, getHeaderOf w0.env w0.now w0.global_id ++ strL "\n")
        ∈ w6b.logWrites) ∧
      (∃ hf, (hf, getFooterOf w6a.env w6a.now w6a.global_starting_time
        w6a.global_id ++ strL "\n") ∈ w6b.logWrites)) :=
  C6_loglevel_gates_header_footer w0 w6a w6b [strL "prog"] true
    (by decide) (by decide)

/-- C10: a parsed error-stream value equal to the literal string
`"stderr"` is left in the options record unchanged by `Start`: no file is
opened for it and it is not replaced by the process standard error stream
(first conjunct), while every other string value is opened as a `"w"`
file (second conjunct). -/
theorem C10_stderr_sentinel (w w1 : World) (argv : List PyStr) (quiet : Bool)
    (vals : Values) (args : List PyStr)
    (hp : parse_args startOpts (defaultValues quiet) (argv.drop 1) =
      .ok (vals, args))
    (hs : vals.stderr = pyS (strL "stderr"))
    (h1 : Start w argv quiet = .ok w1) :
    w1.global_options.stderr = pyS (strL "stderr") ∧
    (∀ (v : Values) (c : Nat) (s : PyStr), v.stderr = pyS s →
      s ≠ strL "stderr" →
      ∃ n, ((resolveStreams v c).1).stderr =
        pstream (.fileH s (strL "w") (gzExt s) n)) := by
  obtain ⟨vals2, args2, hp2, ho, _⟩ := Start_ok_inv _ _ _ _ h1
  rw [hp] at hp2
  injection hp2 with hpr
  injection hpr with hv ha
  constructor
  · rw [ho, ← hv]
    simp only [resolveStreams]
    rw [hs]
    have h1 : pyS (strL "stderr") ≠ pstream StreamH.procStderr := by decide
    simp [if_neg h1]
  · intro v c s hvs hne
    have hnp : v.stderr ≠ pstream StreamH.procStderr := by
      rw [hvs]; simp [pyS, pstream]
    have hns : v.stderr ≠ pyS (strL "stderr") := by
      rw [hvs]
      intro hh
      apply hne
      simpa [pyS] using hh
    by_cases ho : v.stdout = PyVal.atom (PyAtom.astream StreamH.procStdout)
    · exact ⟨c, by simp [resolveStreams, ho, hnp, hns, hne, openFileH, hvs, pathOf, pyS, pstream]⟩
    · exact ⟨c + 1, by simp [resolveStreams, ho, hnp, hns, hne, openFileH, hvs, pathOf, pyS, pstream]⟩

def vals10 : Values := { defaultValues false with stderr := pyS (strL "stderr") }
def w10 : World := okW (Start w0 [strL "prog", strL "--error=stderr"] false)

theorem C10_witness :
    w10.global_options.stderr = pyS (strL "stderr") :=
  (C10_stderr_sentinel w0 w10 [strL "prog", strL "--error=stderr"] false
    vals10 [] (by decide) (by decide) (by decide)).1

/-- C7: parsing argv `["prog","--verbose=2","--timeit-name=x","input.txt"]`
through `Start` yields an options record with loglevel 2 and
`timeit_name = "x"`, and the positional-argument list `["input.txt"]`. -/
theorem C7_start_scenario :
    (Start w0 [strL "prog", strL "--verbose=2", strL "--timeit-name=x",
        strL "input.txt"] false).map
      (fun w => (w.global_options.loglevel, w.global_options.timeit_name,
        w.global_args)) =
    .ok (pyI 2, pyS (strL "x"), [strL "input.txt"]) := by decide

/-- C8 counterexample: the command line does not accept a flag literally
named `--timeit-file`; supplying it is a usage error (the registered flag
is `--timeit`). -/
theorem C8_counterexample_timeit_file_rejected :
    Start w0 [strL "prog", strL "--timeit-file=x"] false =
      .error .noSuchOption := by decide

/-- C8 (amended): the flag is literally named `--timeit`; it takes a path
argument and sets the `timeit_file` option field for the run. -/
theorem C8_timeit_flag_sets_timeit_file :
    (Start w0 [strL "prog", strL "--timeit=stats.tsv"] false).map
      (fun w => w.global_options.timeit_file) =
    .ok (pyS (strL "stats.tsv")) := by decide

/-- C2 (code bug): contrary to the `AppendCommaOption` docstring, a raw
value equal to `"None"` or `""` does not leave the option at its default:
`--timeit-name=None` replaces the default `"all"` by the literal string
`"None"`, and `--timeit-name=` replaces it by the empty string. -/
theorem C2_none_and_empty_do_override :
    (defaultValues false).timeit_name = pyS (strL "all") ∧
    (Start w0 [strL "prog", strL "--timeit-name=None"] false).map
      (fun w => w.global_options.timeit_name) = .ok (pyS (strL "None")) ∧
    (Start w0 [strL "prog", strL "--timeit-name="] false).map
      (fun w => w.global_options.timeit_name) = .ok (pyS (strL "")) := by
  decide

def argv5 : List PyStr := [strL "prog", strL "--error=e.txt", strL "--log2stderr"]
def w5a : World := okW (Start w0 argv5 false)
def w5b : World := okW (Stop w5a)

/-- C5 counterexample: in the run `prog --error=e.txt --log2stderr`, the
log stream is the opened error file (via `log2stderr` aliasing), and
`Stop` closes exactly that stream — so "stop never closes the log
stream" is false on the code. -/
theorem C5_counterexample_log_stream_closed :
    Start w0 argv5 false = .ok w5a ∧ Stop w5a = .ok w5b ∧
    w5a.global_options.stdlog =
      pstream (.fileH (strL "e.txt") (strL "w") false 0) ∧
    StreamH.fileH (strL "e.txt") (strL "w") false 0 ∈ w5b.closed := by
  decide

/-- C5 (amended): for option records of the shape `Start`'s parser
produces, `Stop` closes the output stream and the error stream exactly
when each differs from its process default, and never closes the stream
in the log field directly: when the log stream is the same stream as
standard output it is never closed.  (The counterexample shows the one
exception the original claim misses: `log2stderr` can alias the log to a
non-default error stream, which `Stop` does close.) -/
theorem C5_amended_close_behavior (vals : Values) (w w2 : World)
    (hout : vals.stdout = pstream .procStdout ∨ ∃ s, vals.stdout = pyS s)
    (herr : vals.stderr = pstream .procStderr ∨
      ∃ s, vals.stderr = pyS s ∧ s ≠ strL "stderr")
    (hlog : vals.stdlog = pstream .procStdout ∨ ∃ s, vals.stdlog = pyS s)
    (hwopts : w.global_options = (resolveStreams vals w.nextFd).1)
    (hwcl : w.closed = [])
    (h2 : Stop w = .ok w2) :
    w2.closed = closedAdd w.global_options.stdout .procStdout ++
      closedAdd w.global_options.stderr .procStderr ∧
    (w.global_options.stdlog = w.global_options.stdout →
      ∀ hL, w.global_options.stdlog = pstream hL → hL ∉ w2.closed) := by
  obtain ⟨_, _, _, hclosed⟩ := Stop_ok_inv _ _ h2
  have hcl2 : w2.closed = closedAdd w.global_options.stdout .procStdout ++
      closedAdd w.global_options.stderr .procStderr := by
    rw [hclosed, hwcl]
    simp
  refine ⟨hcl2, ?_⟩
  intro heq hL hlog2
  rw [hcl2]
  rw [hwopts] at heq hlog2
  rcases hout with ho | ⟨so, ho⟩ <;>
    rcases herr with he | ⟨se, he, hene⟩ <;>
      rcases hlog with hl | ⟨sl, hl⟩ <;>
        by_cases hl2 : pyTruthy vals.log2stderr = true <;>
          rw [hwopts] <;>
          simp_all [resolveStreams, pyS, pstream, openFileH, pathOf,
            closedAdd] <;>
          first
            | exact absurd heq.2.1 (by decide)
            | (subst hlog2; simp)

def vals5w : Values :=
  { defaultValues false with
    stderr := pyS (strL "e.txt")
    log2stderr := pyB true }

def wit5 : World := { w0 with global_options := (resolveStreams vals5w w0.nextFd).1 }
def wit5b : World := okW (Stop wit5)

theorem C5_amended_witness :
    wit5b.closed = closedAdd wit5.global_options.stdout .procStdout ++
      closedAdd wit5.global_options.stderr .procStderr ∧
    (wit5.global_options.stdlog = wit5.global_options.stdout →
      ∀ hL, wit5.global_options.stdlog = pstream hL → hL ∉ wit5b.closed) :=
  C5_amended_close_behavior vals5w wit5 wit5b
    (Or.inl rfl)
    (Or.inr ⟨strL "e.txt", rfl, by decide⟩)
    (Or.inl rfl)
    rfl rfl (by decide)

/-- Modelled from the spec: the module docstring advertises caching
decorators (`cachedfunction`, `cachedmethod`, source lines 227-229) whose
definitions are absent from the source file.  Spec section 4.4: "a
memoizing wrapper that caches a function's result keyed by its exact
argument tuple for the remaining process lifetime (unbounded cache, no
eviction)".  `cacheFind` looks an argument up in the cache. -/
def cacheFind {A B : Type} [DecidableEq A] (a : A) :
    List (A × B) → Option B
  | [] => none
  | p :: ps => if p.1 = a then some p.2 else cacheFind a ps

/-- Modelled from the spec: run the memoized wrapper of `f` over a list of
calls.  Returns the results, the final cache, and the list of arguments
for which `f` was actually evaluated (a cache hit returns the stored
result without calling `f`; a miss calls `f` once and stores the result
forever — no eviction). -/
def memoRun {A B : Type} [DecidableEq A] (f : A → B) :
    List A → List (A × B) → List B × List (A × B) × List A
  | [], cache => ([], cache, [])
  | a :: rest, cache =>
    match cacheFind a cache with
    | some b =>
      let r := memoRun f rest cache
      (b :: r.1, r.2.1, r.2.2)
    | none =>
      let b := f a
      let r := memoRun f rest (cache ++ [(a, b)])
      (b :: r.1, r.2.1, a :: r.2.2)

theorem cacheFind_sound {A B : Type} [DecidableEq A] (f : A → B) (a : A)
    (b : B) : ∀ (cache : List (A × B)), (∀ p ∈ cache, p.2 = f p.1) →
    cacheFind a cache = some b → b = f a := by
  intro cache
  induction cache with
  | nil => intro _ h; exact Option.noConfusion h
  | cons p ps ih =>
    intro hsound h
    simp only [cacheFind] at h
    by_cases hp : p.1 = a
    · rw [if_pos hp] at h
      injection h with hb
      rw [← hb, hsound p (by simp), hp]
    · rw [if_neg hp] at h
      exact ih (fun q hq => hsound q (by simp [hq])) h

theorem cacheFind_mem_key {A B : Type} [DecidableEq A] (a : A)
    (b : B) : ∀ (cache : List (A × B)), cacheFind a cache = some b →
    a ∈ cache.map Prod.fst := by
  intro cache
  induction cache with
  | nil => intro h; exact Option.noConfusion h
  | cons p ps ih =>
    intro h
    simp only [cacheFind] at h
    by_cases hp : p.1 = a
    · simp [← hp]
    · rw [if_neg hp] at h
      simp [ih h]

theorem cacheFind_none_of_not_mem {A B : Type} [DecidableEq A] (a : A) :
    ∀ (cache : List (A × B)), a ∉ cache.map Prod.fst →
    cacheFind a cache = none := by
  intro cache
  induction cache with
  | nil => intro _; rfl
  | cons p ps ih =>
    intro hnm
    simp only [List.map_cons, List.mem_cons] at hnm
    push_neg at hnm
    have hp : p.1 ≠ a := fun hp => hnm.1 hp.symm
    simp only [cacheFind, if_neg hp]
    exact ih hnm.2

theorem cacheFind_isSome_of_mem {A B : Type} [DecidableEq A] (a : A) :
    ∀ (cache : List (A × B)), a ∈ cache.map Prod.fst →
    ∃ b2, cacheFind a cache = some b2 := by
  intro cache
  induction cache with
  | nil => intro hm; simp at hm
  | cons p ps ih =>
    intro hm
    by_cases hp : p.1 = a
    · exact ⟨p.2, by simp only [cacheFind, if_pos hp]⟩
    · simp only [cacheFind, if_neg hp]
      apply ih
      simp only [List.map_cons, List.mem_cons] at hm
      rcases hm with hm1 | hm2
      · exact absurd hm1.symm hp
      · exact hm2

theorem memoRun_main {A B : Type} [DecidableEq A] (f : A → B)
    (calls : List A) : ∀ (cache : List (A × B)),
    (∀ p ∈ cache, p.2 = f p.1) →
    (memoRun f calls cache).1 = calls.map f ∧
    (∀ p ∈ (memoRun f calls cache).2.1, p.2 = f p.1) ∧
    ((memoRun f calls cache).2.1).map Prod.fst =
      cache.map Prod.fst ++ (memoRun f calls cache).2.2 ∧
    (∀ a ∈ (memoRun f calls cache).2.2, a ∉ cache.map Prod.fst) ∧
    ((memoRun f calls cache).2.2).Nodup := by
  induction calls with
  | nil =>
    intro cache hsound
    exact ⟨rfl, hsound, by simp [memoRun], by simp [memoRun], by simp [memoRun]⟩
  | cons a rest ih =>
    intro cache hsound
    simp only [memoRun]
    cases hfind : cacheFind a cache with
    | some b =>
      obtain ⟨ih1, ih2, ih3, ih4, ih5⟩ := ih cache hsound
      have hb : b = f a := cacheFind_sound f a b cache hsound hfind
      exact ⟨by simp [ih1, hb], ih2, ih3, ih4, ih5⟩
    | none =>
      have hsound2 : ∀ p ∈ cache ++ [(a, f a)], p.2 = f p.1 := by
        intro p hp
        rcases List.mem_append.mp hp with hp1 | hp2
        · exact hsound p hp1
        · simp only [List.mem_singleton] at hp2
          rw [hp2]
      obtain ⟨ih1, ih2, ih3, ih4, ih5⟩ := ih (cache ++ [(a, f a)]) hsound2
      have hanm : a ∉ cache.map Prod.fst := by
        intro hm
        obtain ⟨b2, hb2⟩ := cacheFind_isSome_of_mem a cache hm
        rw [hfind] at hb2
        exact Option.noConfusion hb2
      refine ⟨by simp [ih1], ih2, ?_, ?_, ?_⟩
      · rw [ih3]
        simp
      · intro x hx
        simp only [List.mem_cons] at hx
        rcases hx with hx1 | hx2
        · rw [hx1]; exact hanm
        · have := ih4 x hx2
          simp only [List.map_append, List.map_cons, List.map_nil] at this
          intro hmem
          exact this (by simp [hmem])
      · refine List.Nodup.cons ?_ ih5
        intro hmem
        have := ih4 a hmem
        simp at this

/-- C9: the memoizing wrapper run over any call sequence from the empty
cache: every call returns the wrapped function's value at its argument
(so a repeated call returns the result cached at the first call), the
final cache keys are exactly the evaluated arguments (nothing is ever
evicted), and the evaluated arguments are pairwise distinct — each exact
argument is computed at most once in the process. -/
theorem C9_memo_wrapper {A B : Type} [DecidableEq A] (f : A → B)
    (calls : List A) :
    (memoRun f calls []).1 = calls.map f ∧
    ((memoRun f calls []).2.1).map Prod.fst = (memoRun f calls []).2.2 ∧
    ((memoRun f calls []).2.2).Nodup := by
  have h := memoRun_main f calls [] (by simp)
  exact ⟨h.1, by simpa using h.2.2.1, h.2.2.2.2⟩

theorem C9_witness :
    (memoRun (fun n : Nat => n * n) [2, 3, 2, 2] []).1 = [4, 9, 4, 4] ∧
    ((memoRun (fun n : Nat => n * n) [2, 3, 2, 2] []).2.1).map Prod.fst =
      (memoRun (fun n : Nat => n * n) [2, 3, 2, 2] []).2.2 ∧
    ((memoRun (fun n : Nat => n * n) [2, 3, 2, 2] []).2.2).Nodup := by
  have h := C9_memo_wrapper (fun n : Nat => n * n) [2, 3, 2, 2]
  exact ⟨by rw [h.1]; rfl, h.2.1, h.2.2⟩

theorem checkList_method (l : List PyStr) :
    checkList methodOpt l = .ok (l.map PyAtom.astr) := by
  induction l with
  | nil => rfl
  | cons t ts ih =>
    simp only [checkList, ih, List.map_cons]
    rfl

theorem method_arg_ne_dashdash (v : PyStr) :
    ('-' :: '-' :: 'm' :: 'e' :: 't' :: 'h' :: 'o' :: 'd' :: '=' :: v) ≠
      strL "--" := by
  intro h
  have hdd : strL "--" = ['-', '-'] := rfl
  rw [hdd] at h
  injection h with _ h1
  injection h1 with _ h2
  exact List.noConfusion h2

theorem splitOnFirst_method (v : PyStr) :
    splitOnFirst '=' ('-' :: '-' :: 'm' :: 'e' :: 't' :: 'h' :: 'o' :: 'd' :: '=' :: v) =
      some (['-', '-', 'm', 'e', 't', 'h', 'o', 'd'], v) := rfl

theorem matchLong_method :
    matchLong startOpts ['-', '-', 'm', 'e', 't', 'h', 'o', 'd'] =
      .ok methodOpt := rfl

theorem convert_value_method_plain (v : PyStr) (hv : v ≠ []) (hc : ',' ∉ v) :
    convert_value methodOpt (some v) = .ok (.atom (.astr v)) := by
  simp only [convert_value]
  rw [if_pos (show methodOpt.action = OptAction.append from rfl),
    if_neg hc, if_pos hv]
  rfl

theorem convert_value_method_comma (raw : PyStr) (hc : ',' ∈ raw) :
    convert_value methodOpt (some raw) =
      .ok (.plist ((dropEmpty (splitChar ',' raw)).map PyAtom.astr)) := by
  simp only [convert_value]
  rw [if_pos (show methodOpt.action = OptAction.append from rfl),
    if_pos hc, checkList_method]

theorem take_action_method_single (v : PyStr) (vals : Values)
    (cur : List PyAtom) (hm : ensureList vals.method = .ok cur) :
    take_action methodOpt (.atom (.astr v)) vals =
      .ok (vals.set .dmethod (.plist (cur ++ [.astr v]))) := by
  simp only [take_action, base_take_action, methodOpt]
  have hget : vals.get Dest.dmethod = vals.method := rfl
  rw [hget, hm]

theorem take_action_method_list (l : List PyAtom) (vals : Values)
    (cur : List PyAtom) (hm : ensureList vals.method = .ok cur) :
    take_action methodOpt (.plist l) vals =
      .ok (vals.set .dmethod (.plist (cur ++ l))) := by
  simp only [take_action, methodOpt]
  have hget : vals.get Dest.dmethod = vals.method := rfl
  rw [hget, hm]

theorem processLong_method_plain (v : PyStr) (hv : v ≠ []) (hc : ',' ∉ v)
    (rest : List PyStr) (vals : Values) (cur : List PyAtom)
    (hm : ensureList vals.method = .ok cur) :
    processLong startOpts
      ('-' :: '-' :: 'm' :: 'e' :: 't' :: 'h' :: 'o' :: 'd' :: '=' :: v)
      rest vals =
      .ok (vals.set .dmethod (.plist (cur ++ [.astr v])), false) := by
  simp only [processLong, splitOnFirst_method, matchLong_method]
  simp only [processOpt, convert_value_method_plain v hv hc,
    take_action_method_single v vals cur hm]
  rfl

theorem processLong_method_comma (raw : PyStr) (hc : ',' ∈ raw)
    (rest : List PyStr) (vals : Values) (cur : List PyAtom)
    (hm : ensureList vals.method = .ok cur) :
    processLong startOpts
      ('-' :: '-' :: 'm' :: 'e' :: 't' :: 'h' :: 'o' :: 'd' :: '=' :: raw)
      rest vals =
      .ok (vals.set .dmethod
        (.plist (cur ++ (dropEmpty (splitChar ',' raw)).map PyAtom.astr)),
        false) := by
  simp only [processLong, splitOnFirst_method, matchLong_method]
  simp only [processOpt, convert_value_method_comma raw hc,
    take_action_method_list _ vals cur hm]
  rfl

theorem parse_method_step (fuel : Nat) (vals : Values) (largs rest : List PyStr)
    (v : PyStr) (hv : v ≠ []) (hc : ',' ∉ v) (cur : List PyAtom)
    (hm : ensureList vals.method = .ok cur) :
    parseLoop startOpts (fuel + 1) vals largs
      ((strL "--method=" ++ v) :: rest) =
    parseLoop startOpts fuel (vals.set .dmethod (.plist (cur ++ [.astr v])))
      largs rest := by
  have harg : strL "--method=" ++ v =
      '-' :: '-' :: 'm' :: 'e' :: 't' :: 'h' :: 'o' :: 'd' :: '=' :: v := rfl
  rw [harg]
  simp only [parseLoop]
  rw [if_neg (method_arg_ne_dashdash v)]
  simp only [processLong_method_plain v hv hc rest vals cur hm]
  simp

theorem parse_method_comma_step (fuel : Nat) (vals : Values)
    (largs rest : List PyStr) (raw : PyStr) (hc : ',' ∈ raw)
    (cur : List PyAtom) (hm : ensureList vals.method = .ok cur) :
    parseLoop startOpts (fuel + 1) vals largs
      ((strL "--method=" ++ raw) :: rest) =
    parseLoop startOpts fuel
      (vals.set .dmethod
        (.plist (cur ++ (dropEmpty (splitChar ',' raw)).map PyAtom.astr)))
      largs rest := by
  have harg : strL "--method=" ++ raw =
      '-' :: '-' :: 'm' :: 'e' :: 't' :: 'h' :: 'o' :: 'd' :: '=' :: raw := rfl
  rw [harg]
  simp only [parseLoop]
  rw [if_neg (method_arg_ne_dashdash raw)]
  simp only [processLong_method_comma raw hc rest vals cur hm]
  simp

theorem Values.set_method_self (vals : Values) :
    vals.set .dmethod vals.method = vals := rfl

theorem Values.set_method_twice (vals : Values) (x y : PyVal) :
    (vals.set .dmethod x).set .dmethod y = vals.set .dmethod y := rfl

theorem parse_method_repeat (vs : List PyStr)
    (hgood : ∀ v ∈ vs, v ≠ [] ∧ ',' ∉ v) :
    ∀ (fuel : Nat) (vals : Values) (cur : List PyAtom) (largs : List PyStr),
      fuel = vs.length → vals.method = .plist cur →
      parseLoop startOpts (fuel + 1) vals largs
        (vs.map (fun v => strL "--method=" ++ v)) =
      .ok (vals.set .dmethod (.plist (cur ++ vs.map PyAtom.astr)), largs) := by
  induction vs with
  | nil =>
    intro fuel vals cur largs hf hm
    subst hf
    simp only [List.length_nil, List.map_nil, parseLoop, List.append_nil]
    rw [← hm, Values.set_method_self]
  | cons v rest ih =>
    intro fuel vals cur largs hf hm
    subst hf
    have hgv := hgood v (by simp)
    simp only [List.map_cons, List.length_cons]
    rw [parse_method_step (rest.length + 1) vals largs
      (List.map (fun v => strL "--method=" ++ v) rest) v hgv.1 hgv.2 cur
      (by rw [hm]; rfl)]
    rw [ih (fun x hx => hgood x (by simp [hx])) rest.length
      (vals.set Dest.dmethod (PyVal.plist (cur ++ [PyAtom.astr v])))
      (cur ++ [PyAtom.astr v]) largs rfl rfl]
    simp [List.append_assoc, Values.set_method_twice]

theorem parse_single_comma_token (raw : PyStr) (hc : ',' ∈ raw) :
    parse_args startOpts (defaultValues false) [strL "--method=" ++ raw] =
    .ok ((defaultValues false).set .dmethod
      (.plist ((dropEmpty (splitChar ',' raw)).map PyAtom.astr)), []) := by
  unfold parse_args
  simp only [List.length_singleton]
  rw [parse_method_comma_step 1 (defaultValues false) [] [] raw hc [] rfl]
  simp [parseLoop]

/-- C3: for the accumulate-declared single-arity option `--method`, a raw
value containing a comma is split on commas, every empty token is
dropped, each remaining token is converted, and the results extend the
accumulated list. -/
theorem C3_comma_split_extends (raw : PyStr) (hc : ',' ∈ raw) :
    parse_args startOpts (defaultValues false) [strL "--method=" ++ raw] =
    .ok ((defaultValues false).set .dmethod
      (.plist ((dropEmpty (splitChar ',' raw)).map PyAtom.astr)), []) :=
  parse_single_comma_token raw hc

theorem C3_witness :
    parse_args startOpts (defaultValues false) [strL "--method=a,,b"] =
    .ok ((defaultValues false).set .dmethod
      (.plist ((dropEmpty (splitChar ',' (strL "a,,b"))).map PyAtom.astr)),
      []) :=
  C3_comma_split_extends (strL "a,,b") (by decide)

/-- C1: for the accumulate-declared single-arity option `--method`,
supplying the values as one comma-separated token and supplying them as
repeated occurrences of the flag parse to identical results, for any
nonempty list of nonempty comma-free values. -/
theorem C1_comma_equals_repeated (vs : List PyStr) (hne : vs ≠ [])
    (hgood : ∀ v ∈ vs, v ≠ [] ∧ ',' ∉ v) :
    parse_args startOpts (defaultValues false)
      [strL "--method=" ++ joinSep ',' vs] =
    parse_args startOpts (defaultValues false)
      (vs.map (fun v => strL "--method=" ++ v)) := by
  cases vs with
  | nil => exact absurd rfl hne
  | cons v rest =>
    cases rest with
    | nil => simp [joinSep]
    | cons t ts =>
      have hcm : ',' ∈ joinSep ',' (v :: t :: ts) := sep_mem_joinSep ',' v t ts
      have hsplit : splitChar ',' (joinSep ',' (v :: t :: ts)) = v :: t :: ts :=
        splitChar_joinSep ',' _ (by simp) (fun s hs => (hgood s hs).2)
      have hdrop : dropEmpty (v :: t :: ts) = v :: t :: ts :=
        dropEmpty_of_all_ne _ (fun s hs => (hgood s hs).1)
      have hL : parse_args startOpts (defaultValues false)
          [strL "--method=" ++ joinSep ',' (v :: t :: ts)] =
          .ok ((defaultValues false).set .dmethod
            (.plist ((v :: t :: ts).map PyAtom.astr)), []) := by
        rw [parse_single_comma_token _ hcm, hsplit, hdrop]
      have hR : parse_args startOpts (defaultValues false)
          ((v :: t :: ts).map (fun v => strL "--method=" ++ v)) =
          .ok ((defaultValues false).set .dmethod
            (.plist ((v :: t :: ts).map PyAtom.astr)), []) := by
        unfold parse_args
        simp only [List.length_map, List.length_cons, List.map_cons]
        rw [parse_method_step (ts.length + 1 + 1) (defaultValues false) []
          ((strL "--method=" ++ t) ::
            List.map (fun v => strL "--method=" ++ v) ts)
          v (hgood v (by simp)).1 (hgood v (by simp)).2 [] rfl]
        have hmap : (strL "--method=" ++ t) ::
            List.map (fun v => strL "--method=" ++ v) ts =
            List.map (fun v => strL "--method=" ++ v) (t :: ts) := rfl
        rw [hmap]
        rw [parse_method_repeat (t :: ts)
          (fun x hx => hgood x (by simp [hx])) (ts.length + 1)
          ((defaultValues false).set Dest.dmethod
            (PyVal.plist ([] ++ [PyAtom.astr v])))
          ([] ++ [PyAtom.astr v]) [] (by simp) rfl]
        simp [List.append_assoc, Values.set_method_twice]
      rw [hL, hR]

theorem C1_witness :
    parse_args startOpts (defaultValues false)
      [strL "--method=" ++ joinSep ',' [strL "sort", strL "crop"]] =
    parse_args startOpts (defaultValues false)
      ([strL "sort", strL "crop"].map (fun v => strL "--method=" ++ v)) :=
  C1_comma_equals_repeated [strL "sort", strL "crop"] (by decide) (by decide)
